import Mathlib

/-!
Verification of the clipsai resize engine (clipsai/resize/resizer.py and
clipsai/resize/segment.py) against its natural-language specification.

Python floats are modelled as exact rationals (all constants appearing in
the claims are dyadic and computed exactly by the source), Python ints as
integers, Python `//` as `Int.fdiv` (floor division), `int(...)` as
truncation toward zero, and fallible operations (division by zero, missing
dictionary keys) as `Option`/`Except`.
-/

namespace ClipsAI

/-- Truncation toward zero of a rational, modelling Python `int(...)` applied
to a float. -/
def pyInt (q : ℚ) : ℤ :=
  if q < 0 then -(Int.floor (-q)) else Int.floor q

/-- Modelled from the spec: the Rect value type of §3, an axis-aligned
rectangle {x, y, width, height} in source pixel coordinates (the module
clipsai/resize/rect.py is not among the provided sources; only the four
fields and the constructor order Rect(x, y, width, height) are used by the
code under verification). -/
structure Rect where
  x : ℤ
  y : ℤ
  width : ℤ
  height : ℤ
deriving DecidableEq, Repr

/-- Embedding of Resizer._calc_resize_width_and_height_pixels: choose the
crop dimensions for a target aspect ratio, truncating the scaled side with
Python int(). -/
def calc_resize_width_and_height_pixels (origW origH arW arH : ℤ) : ℤ × ℤ :=
  let desired : ℚ := (arW : ℚ) / (arH : ℚ)
  let original : ℚ := (origW : ℚ) / (origH : ℚ)
  if desired < original then
    (pyInt ((origH : ℚ) * (arW : ℚ) / (arH : ℚ)), origH)
  else
    (origW, pyInt ((origW : ℚ) * (arH : ℚ) / (arW : ℚ)))

/-- Embedding of Resizer._calc_crop: centre the crop on the ROI centre,
clamping only the lower bounds at zero (Python `//` is floor division). -/
def calc_crop (roi : Rect) (resizeW resizeH : ℤ) : Rect :=
  let roiXCenter := roi.x + roi.width.fdiv 2
  let roiYCenter := roi.y + roi.height.fdiv 2
  { x := max (roiXCenter - resizeW.fdiv 2) 0
    y := max (roiYCenter - resizeH.fdiv 2) 0
    width := resizeW
    height := resizeH }

/-- Embedding of the Segment class of segment.py: crop coordinates plus the
optional split-screen fields, which default to None. -/
structure Segment where
  speakers : List ℤ
  start_time : ℚ
  end_time : ℚ
  x : ℤ
  y : ℤ
  width : Option ℤ := none
  height : Option ℤ := none
  target_x : Option ℤ := none
  target_y : Option ℤ := none
deriving DecidableEq, Repr

/-- Embedding of Segment.__bool__: the conjunction of the Python truthiness
of speakers, start_time, end_time, x and y (a number is truthy iff nonzero,
a list iff nonempty). -/
def Segment.toBool (s : Segment) : Bool :=
  decide (s.speakers ≠ []) && decide (s.start_time ≠ 0) &&
    decide (s.end_time ≠ 0) && decide (s.x ≠ 0) && decide (s.y ≠ 0)

/-- Modelled from the spec: bytes of an image buffer as height × width ×
channels (img_proc.calc_img_bytes is not among the provided sources; §4.2
describes the batch computation in terms of bytes-per-frame of the raw and
downsampled buffers). -/
def calc_img_bytes (height width channels : ℤ) : ℤ :=
  height * width * channels

/-- Python integer floor division, failing (ZeroDivisionError) on a zero
divisor. -/
def pyFloorDiv (a b : ℤ) : Option ℤ :=
  if b = 0 then none else some (a.fdiv b)

/-- Embedding of Resizer._calc_n_batches. The free CPU memory returned by
the external query and the CUDA availability flag are passed as parameters;
every Python `//` is a pyFloorDiv so that a zero divisor propagates as
failure, including the per-batch diagnostic divisions the code always
evaluates. -/
def calc_n_batches (vidW vidH numFrames faceDetectW nFaceDetectBatches freeCpu : ℤ)
    (cudaAvailable : Bool) : Option ℤ :=
  let bytesPerFrame := calc_img_bytes vidH vidW 3
  let totalExtract := numFrames * bytesPerFrame
  let downsampleFactor : ℚ := max ((vidW : ℚ) / (faceDetectW : ℚ)) 1
  let faceDetectH : ℤ := Int.floor ((vidH : ℚ) / downsampleFactor)
  let detectBytesPerFrame := calc_img_bytes faceDetectH faceDetectW 3
  let totalFaceDetect := numFrames * detectBytesPerFrame
  let totalExtractAll := if cudaAvailable then totalExtract else totalExtract + totalFaceDetect
  let detectBatchesHint := if cudaAvailable then nFaceDetectBatches else 0
  (pyFloorDiv totalExtractAll freeCpu).bind fun q =>
    let nExtractBatches := q + 1
    let nBatches := max nExtractBatches detectBatchesHint
    (pyFloorDiv totalExtractAll nBatches).bind fun _ =>
      if detectBatchesHint = 0 then some nBatches
      else (pyFloorDiv totalFaceDetect nBatches).map fun _ => nBatches

/-- Embedding of Resizer.union_rois: smallest rectangle covering both. -/
def union_rois (r1 r2 : Rect) : Rect :=
  let ux := min r1.x r2.x
  let uy := min r1.y r2.y
  { x := ux
    y := uy
    width := max (r1.x + r1.width) (r2.x + r2.width) - ux
    height := max (r1.y + r1.height) (r2.y + r2.height) - uy }

/-- Embedding of Resizer.iou: intersection area over union area, 0 when the
union area is not positive (the Python code divides floats and returns 0
when union <= 0). -/
def iou (r1 r2 : Rect) : ℚ :=
  let ix1 := max r1.x r2.x
  let iy1 := max r1.y r2.y
  let ix2 := min (r1.x + r1.width) (r2.x + r2.width)
  let iy2 := min (r1.y + r1.height) (r2.y + r2.height)
  let intersection : ℤ := max 0 (ix2 - ix1) * max 0 (iy2 - iy1)
  let unionArea : ℤ := r1.width * r1.height + r2.width * r2.height - intersection
  if 0 < unionArea then (intersection : ℚ) / (unionArea : ℚ) else 0

/-- Embedding of the inner while loop of Resizer.merge_rois: a single
forward pass over the remaining ROIs, absorbing (popping) each one whose IoU
with the accumulating rectangle exceeds the threshold and keeping the others
in order. -/
def mergeRoisAux (thr : ℚ) (r : Rect) : List Rect → Rect × List Rect
  | [] => (r, [])
  | x :: xs =>
    if thr < iou r x then mergeRoisAux thr (union_rois r x) xs
    else
      let p := mergeRoisAux thr r xs
      (p.1, x :: p.2)

theorem mergeRoisAux_snd_length (thr : ℚ) (r : Rect) (l : List Rect) :
    (mergeRoisAux thr r l).2.length ≤ l.length := by
  induction l generalizing r with
  | nil => simp [mergeRoisAux]
  | cons x xs ih =>
    rw [mergeRoisAux]
    split
    · exact le_trans (ih _) (Nat.le_succ _)
    · simpa using ih r

/-- Embedding of Resizer.merge_rois: pop the first ROI, absorb overlapping
ones in a single forward pass, append, repeat on what is left. -/
def merge_rois (thr : ℚ) : List Rect → List Rect
  | [] => []
  | r :: rest =>
    (mergeRoisAux thr r rest).1 :: merge_rois thr (mergeRoisAux thr r rest).2
termination_by l => l.length
decreasing_by
  simp only [List.length_cons]
  exact Nat.lt_succ_of_le (mergeRoisAux_snd_length _ _ _)

/-- A sub-crop dictionary produced by _calc_split_screen_crops: the keys
x, y, width, height are always written; target_x and target_y are optional
because the two-ROI branch writes only target_y. -/
structure SplitCrop where
  x : ℤ
  y : ℤ
  width : ℤ
  height : ℤ
  target_x : Option ℤ := none
  target_y : Option ℤ := none
deriving DecidableEq, Repr

/-- Ceiling of the integer square root, modelling math.ceil(math.sqrt n). -/
def ceilSqrt (n : ℕ) : ℕ :=
  if Nat.sqrt n * Nat.sqrt n = n then Nat.sqrt n else Nat.sqrt n + 1

/-- Embedding of Resizer._calc_split_screen_crops: two ROIs are stacked
vertically (full width, half height, only target_y written); more than two
ROIs get a ceil(sqrt n) grid with both target offsets; fewer than two yield
no crops. -/
def calc_split_screen_crops (rois : List Rect) (resizeW resizeH : ℤ) : List SplitCrop :=
  let n := rois.length
  if n = 2 then
    rois.enum.map fun p =>
      let crop := calc_crop p.2 resizeW (resizeH.fdiv 2)
      { x := crop.x, y := crop.y, width := resizeW, height := resizeH.fdiv 2,
        target_x := none, target_y := some ((p.1 : ℤ) * resizeH.fdiv 2) }
  else if 2 < n then
    let gridSize : ℤ := (ceilSqrt n : ℤ)
    let cellW := resizeW.fdiv gridSize
    let cellH := resizeH.fdiv gridSize
    rois.enum.map fun p =>
      let crop := calc_crop p.2 cellW cellH
      { x := crop.x, y := crop.y, width := cellW, height := cellH,
        target_x := some ((p.1 : ℤ) % gridSize * cellW),
        target_y := some ((p.1 : ℤ).fdiv gridSize * cellH) }
  else []

/-- Embedding of the split branch of Resizer.resize (construction of the
output Segment records): each sub-crop dictionary is read at the keys x, y,
width, height, target_x and target_y, and a missing key is a KeyError,
modelled as None. -/
def mkSplitSegments (speakers : List ℤ) (startTime endTime : ℚ)
    (crops : List SplitCrop) : Option (List Segment) :=
  crops.mapM fun c =>
    c.target_x.bind fun tx =>
      c.target_y.map fun ty =>
        { speakers := speakers, start_time := startTime, end_time := endTime,
          x := c.x, y := c.y, width := some c.width, height := some c.height,
          target_x := some tx, target_y := some ty }

/-- A face bounding box [x1, y1, x2, y2] as returned by the detector. -/
structure BBox where
  x1 : ℤ
  y1 : ℤ
  x2 : ℤ
  y2 : ℤ
deriving DecidableEq, Repr

/-- Embedding of Resizer._calc_segment_rois: collect the bounding boxes of
every non-None detection, in order, as rectangles, then merge them with the
default 0.5 overlap threshold. -/
def calc_segment_rois (faceDetections : List (Option (List BBox))) : List Rect :=
  let rois := (faceDetections.map fun d =>
    (d.getD []).map fun b => Rect.mk b.x1 b.y1 (b.x2 - b.x1) (b.y2 - b.y1)).flatten
  merge_rois (1 / 2) rois

/-- The crop decision recorded on a segment: either a single full-frame crop
at (x, y) or a split-screen list of sub-crops. -/
inductive CropGeom where
  | single (x y : ℤ)
  | split (crops : List SplitCrop)
deriving DecidableEq, Repr

/-- Embedding of the per-segment tail of
Resizer._add_x_y_coords_to_each_segment_batch: the ROI list comes from
_calc_segment_rois when found_face is true and otherwise defaults to the
centered half-frame rectangle; one ROI gives a single crop, several give
split crops, and none gives the center-crop fallback. No branch raises. -/
def add_coords_for_segment (foundFace : Bool)
    (faceDetections : List (Option (List BBox)))
    (vidW vidH resizeW resizeH : ℤ) : Except String CropGeom :=
  let rois := if foundFace then calc_segment_rois faceDetections
    else [{ x := vidW.fdiv 4, y := vidH.fdiv 4,
            width := vidW.fdiv 2, height := vidH.fdiv 2 }]
  match rois with
  | [roi] =>
    let crop := calc_crop roi resizeW resizeH
    Except.ok (CropGeom.single crop.x crop.y)
  | [] => Except.ok (CropGeom.single ((vidW - resizeW).fdiv 2) ((vidH - resizeH).fdiv 2))
  | _ => Except.ok (CropGeom.split (calc_split_screen_crops rois resizeW resizeH))

/-- C1: the claim asserts crop_width = 608 for a 1920×1080 source at target
aspect ratio (9,16); the code computes int(1080 * 9 / 16) = int(607.5) =
607, so the claimed pair (608, 1080) is not the result. -/
theorem c1_counterexample :
    calc_resize_width_and_height_pixels 1920 1080 9 16 ≠ (608, 1080) := by
  norm_num [calc_resize_width_and_height_pixels, pyInt]

/-- C1 (amended): for a 1920×1080 source and target aspect ratio (9,16) the
resize-dimension calculation returns crop_width = 607 (= int(1080*9/16),
truncation of 607.5) and crop_height = 1080. -/
theorem c1_resize_dimensions :
    calc_resize_width_and_height_pixels 1920 1080 9 16 = (607, 1080) := by
  norm_num [calc_resize_width_and_height_pixels, pyInt]

/-- C4: with a reported free-memory budget of zero the batch-count
calculation hits `total_extract_bytes // free_cpu_memory` with divisor 0 and
fails (Python ZeroDivisionError) on both the CUDA and the CPU-only path,
instead of falling back to 1 batch as the claim requires; shown on a
1920×1080 video with 100 frames, detect width 960 and batch hint 8. -/
theorem c4_zero_free_memory_fails :
    calc_n_batches 1920 1080 100 960 8 0 true = none ∧
      calc_n_batches 1920 1080 100 960 8 0 false = none := by
  constructor <;> rfl

/-- C10: Segment truthiness does not coincide with validity: segments whose
x is 0, whose y is 0, whose start_time is 0, or whose speaker list is empty
all evaluate to False under __bool__, while a crop clamped to the left edge
really does produce x = 0 (here a ROI at the top-left corner under
_calc_crop). -/
theorem c10_segment_bool_not_validity :
    Segment.toBool { speakers := [1], start_time := 2, end_time := 5, x := 0, y := 120 } = false ∧
    Segment.toBool { speakers := [1], start_time := 2, end_time := 5, x := 120, y := 0 } = false ∧
    Segment.toBool { speakers := [1], start_time := 0, end_time := 5, x := 120, y := 120 } = false ∧
    Segment.toBool { speakers := [], start_time := 2, end_time := 5, x := 120, y := 120 } = false ∧
    (calc_crop { x := 0, y := 0, width := 50, height := 50 } 608 1080).x = 0 := by
  refine ⟨rfl, rfl, rfl, rfl, ?_⟩
  decide

/-- C2: in the two-ROI split layout the sub-crops do carry full target width
608, half target height 540, and target_y values 0 and 540, but the two-ROI
branch of _calc_split_screen_crops never writes target_x, so constructing
the output Segment records (which read crop["target_x"]) fails with a
KeyError instead of succeeding. -/
theorem c2_split_crops_missing_target_x :
    (calc_split_screen_crops [⟨0, 0, 100, 100⟩, ⟨800, 800, 100, 100⟩] 608 1080).map
        SplitCrop.target_x = [none, none] ∧
    (calc_split_screen_crops [⟨0, 0, 100, 100⟩, ⟨800, 800, 100, 100⟩] 608 1080).map
        SplitCrop.target_y = [some 0, some 540] ∧
    (calc_split_screen_crops [⟨0, 0, 100, 100⟩, ⟨800, 800, 100, 100⟩] 608 1080).map
        SplitCrop.width = [608, 608] ∧
    (calc_split_screen_crops [⟨0, 0, 100, 100⟩, ⟨800, 800, 100, 100⟩] 608 1080).map
        SplitCrop.height = [540, 540] ∧
    mkSplitSegments [1] 0 5
      (calc_split_screen_crops [⟨0, 0, 100, 100⟩, ⟨800, 800, 100, 100⟩] 608 1080) = none := by
  refine ⟨?_, ?_, ?_, ?_, ?_⟩ <;> decide

/-- C3: a segment with found_face = true whose sampled frames contain zero
faces is not surfaced as a ResizerError: _calc_segment_rois returns the
empty ROI list and the caller silently falls back to the centered single
crop ((1920-608)//2, (1080-1080)//2) = (656, 0). -/
theorem c3_counterexample :
    add_coords_for_segment true [none, none] 1920 1080 608 1080 =
      Except.ok (CropGeom.single 656 0) := by
  simp [add_coords_for_segment, calc_segment_rois, merge_rois]

/-- C3 (amended): whenever found_face = true but every sampled detection is
empty, the pipeline silently defaults the segment to the centered single
crop ((vidW - resizeW)//2, (vidH - resizeH)//2) instead of raising a fatal
internal error. -/
theorem c3_zero_faces_silent_center_fallback (faceDetections : List (Option (List BBox)))
    (vidW vidH resizeW resizeH : ℤ)
    (h : ∀ d ∈ faceDetections, d.getD [] = []) :
    add_coords_for_segment true faceDetections vidW vidH resizeW resizeH =
      Except.ok (CropGeom.single ((vidW - resizeW).fdiv 2) ((vidH - resizeH).fdiv 2)) := by
  have hrois : calc_segment_rois faceDetections = [] := by
    have hj : (faceDetections.map fun d =>
        (d.getD []).map fun b => Rect.mk b.x1 b.y1 (b.x2 - b.x1) (b.y2 - b.y1)).flatten = [] := by
      rw [List.flatten_eq_nil_iff]
      intro l hl
      rcases List.mem_map.mp hl with ⟨d, hd, rfl⟩
      rw [h d hd]
      rfl
    rw [calc_segment_rois, hj]
    simp [merge_rois]
  rw [add_coords_for_segment, if_pos rfl, hrois]

/-- C3 witness: the amended statement at the concrete counterexample input. -/
theorem c3_zero_faces_silent_center_fallback_witness :
    (∀ d ∈ ([none, none] : List (Option (List BBox))), d.getD [] = []) ∧
    add_coords_for_segment true [none, none] 1920 1080 608 1080 =
      Except.ok (CropGeom.single ((1920 - 608 : ℤ).fdiv 2) ((1080 - 1080 : ℤ).fdiv 2)) :=
  ⟨by decide, c3_zero_faces_silent_center_fallback [none, none] 1920 1080 608 1080 (by decide)⟩

theorem merge_rois_length_le_aux (thr : ℚ) :
    ∀ (n : ℕ) (l : List Rect), l.length ≤ n → (merge_rois thr l).length ≤ l.length := by
  intro n
  induction n with
  | zero =>
    intro l h
    match l with
    | [] => simp [merge_rois]
    | r :: rest => simp at h
  | succ n ih =>
    intro l h
    match l with
    | [] => simp [merge_rois]
    | r :: rest =>
      rw [merge_rois]
      simp only [List.length_cons] at h ⊢
      have h1 := mergeRoisAux_snd_length thr r rest
      have h2 := ih (mergeRoisAux thr r rest).2 (by omega)
      omega

theorem mergeRoisAux_of_forall_le (thr : ℚ) (r : Rect) (l : List Rect)
    (h : ∀ x ∈ l, iou r x ≤ thr) : mergeRoisAux thr r l = (r, l) := by
  induction l with
  | nil => rfl
  | cons x xs ih =>
    rw [mergeRoisAux, if_neg (not_lt.mpr (h x (List.mem_cons_self x xs)))]
    simp only [ih fun y hy => h y (List.mem_cons_of_mem x hy)]

theorem merge_rois_of_pairwise (thr : ℚ) (l : List Rect)
    (h : l.Pairwise fun a b => iou a b ≤ thr) : merge_rois thr l = l := by
  induction l with
  | nil => simp [merge_rois]
  | cons r rest ih =>
    rw [List.pairwise_cons] at h
    rw [merge_rois, mergeRoisAux_of_forall_le thr r rest h.1]
    exact congrArg (r :: ·) (ih h.2)

/-- C6: the output of merge_rois with threshold 0.5 can contain a pair of
distinct rectangles with IoU above 0.5: on [(0,0,10,10), (0,0,10,20),
(0,0,10,14)] the first rectangle skips the second (IoU exactly 0.5), then
absorbs the third and grows to (0,0,10,14), which is never re-compared with
the skipped (0,0,10,20); their IoU is 0.7 > 0.5. -/
theorem c6_counterexample :
    merge_rois (1 / 2) [⟨0, 0, 10, 10⟩, ⟨0, 0, 10, 20⟩, ⟨0, 0, 10, 14⟩] =
      [⟨0, 0, 10, 14⟩, ⟨0, 0, 10, 20⟩] ∧
    1 / 2 < iou ⟨0, 0, 10, 14⟩ ⟨0, 0, 10, 20⟩ := by
  constructor
  · norm_num [merge_rois, mergeRoisAux, iou, union_rois]
  · norm_num [iou]

/-- C6 (amended): for every input list of rectangles the ROI merge with
overlap threshold 0.5 outputs at most as many rectangles as it was given;
the no-further-merge-possible half of the claim fails because the single
forward pass never re-checks already-skipped rectangles after the
accumulating rectangle grows. -/
theorem c6_roi_merge_count_le (l : List Rect) :
    (merge_rois (1 / 2) l).length ≤ l.length :=
  merge_rois_length_le_aux (1 / 2) l.length l le_rfl

/-- C7: merge_rois is not idempotent: on [(0,0,10,10), (0,0,10,20),
(0,0,10,14)] one application yields [(0,0,10,14), (0,0,10,20)] and a second
application merges that pair (IoU 0.7 > 0.5) into [(0,0,10,20)]. -/
theorem c7_counterexample :
    merge_rois (1 / 2) (merge_rois (1 / 2) [⟨0, 0, 10, 10⟩, ⟨0, 0, 10, 20⟩, ⟨0, 0, 10, 14⟩]) ≠
      merge_rois (1 / 2) [⟨0, 0, 10, 10⟩, ⟨0, 0, 10, 20⟩, ⟨0, 0, 10, 14⟩] := by
  norm_num [merge_rois, mergeRoisAux, iou, union_rois]

/-- C7 (amended): merge_rois at the default 0.5 threshold is idempotent on
every list whose rectangles pairwise have IoU at most 0.5 (such a list is
returned unchanged); on general lists idempotence fails because a single
forward pass can leave a pair with IoU above the threshold in its output. -/
theorem c7_idempotent_on_separated (l : List Rect)
    (h : l.Pairwise fun a b => iou a b ≤ 1 / 2) :
    merge_rois (1 / 2) (merge_rois (1 / 2) l) = merge_rois (1 / 2) l := by
  rw [merge_rois_of_pairwise (1 / 2) l h, merge_rois_of_pairwise (1 / 2) l h]

/-- C7 witness: the amended idempotence applied to two disjoint rectangles. -/
theorem c7_idempotent_on_separated_witness :
    ([⟨0, 0, 10, 10⟩, ⟨100, 100, 10, 10⟩] : List Rect).Pairwise
        (fun a b => iou a b ≤ 1 / 2) ∧
    merge_rois (1 / 2) (merge_rois (1 / 2) [⟨0, 0, 10, 10⟩, ⟨100, 100, 10, 10⟩]) =
      merge_rois (1 / 2) [⟨0, 0, 10, 10⟩, ⟨100, 100, 10, 10⟩] := by
  have hp : ([⟨0, 0, 10, 10⟩, ⟨100, 100, 10, 10⟩] : List Rect).Pairwise
      (fun a b => iou a b ≤ 1 / 2) := by
    norm_num [List.pairwise_cons, iou]
  exact ⟨hp, c7_idempotent_on_separated _ hp⟩

/-- A resolved pipeline segment as seen by _merge_identical_segments:
speakers, time range, and the crop decision. -/
structure CSeg where
  speakers : List ℤ
  start_time : ℚ
  end_time : ℚ
  geom : CropGeom
deriving DecidableEq, Repr

/-- Embedding of Resizer._are_single_crops_similar: both normalized
coordinate differences strictly below the ratio threshold. -/
def are_single_crops_similar (x1 y1 x2 y2 vidW vidH : ℤ) (r : ℚ) : Bool :=
  decide (((|x1 - x2| : ℤ) : ℚ) / (vidW : ℚ) < r ∧ ((|y1 - y2| : ℤ) : ℚ) / (vidH : ℚ) < r)

/-- Embedding of Resizer._are_split_crops_similar: equal sub-crop counts and
every zipped pair of sub-crops within the ratio threshold on both axes. -/
def are_split_crops_similar (c1 c2 : List SplitCrop) (vidW vidH : ℤ) (r : ℚ) : Bool :=
  decide (c1.length = c2.length) &&
    (c1.zip c2).all fun p =>
      decide (((|p.1.x - p.2.x| : ℤ) : ℚ) / (vidW : ℚ) < r ∧
        ((|p.1.y - p.2.y| : ℤ) : ℚ) / (vidH : ℚ) < r)

/-- The merge test of the coalescing loop: matching crop_type and the
similarity check of that type (distinct types never merge). -/
def segmentsSimilar (vidW vidH : ℤ) (r : ℚ) (a b : CSeg) : Bool :=
  match a.geom, b.geom with
  | CropGeom.single x1 y1, CropGeom.single x2 y2 =>
    are_single_crops_similar x1 y1 x2 y2 vidW vidH r
  | CropGeom.split c1, CropGeom.split c2 => are_split_crops_similar c1 c2 vidW vidH r
  | _, _ => false

/-- Embedding of the per-pair mutation of _merge_split_crop_segments:
average the x and y of zipped sub-crops with floor division, keeping the
remaining fields of the first sub-crop. -/
def mergeSplitCropPair (c1 c2 : SplitCrop) : SplitCrop :=
  { c1 with x := (c1.x + c2.x).fdiv 2, y := (c1.y + c2.y).fdiv 2 }

/-- Embedding of _merge_single_crop_segments / _merge_split_crop_segments:
the first segment keeps its identity, averages matching coordinates with
floor division, and extends its end_time to the second segment's. -/
def mergeSegPair (a b : CSeg) : CSeg :=
  match a.geom, b.geom with
  | CropGeom.single x1 y1, CropGeom.single x2 y2 =>
    { a with geom := CropGeom.single ((x1 + x2).fdiv 2) ((y1 + y2).fdiv 2),
             end_time := b.end_time }
  | CropGeom.split c1, CropGeom.split c2 =>
    { a with geom := CropGeom.split (c1.zipWith mergeSplitCropPair c2 ++ c1.drop c2.length),
             end_time := b.end_time }
  | _, _ => { a with end_time := b.end_time }

/-- Embedding of Resizer._merge_identical_segments with its hard-coded
threshold 0.04: when the pair at the cursor is similar the merged segment
replaces both and is immediately re-compared with the following one;
otherwise the cursor moves right. -/
def merge_identical_segments (vidW vidH : ℤ) : List CSeg → List CSeg
  | [] => []
  | [a] => [a]
  | a :: b :: rest =>
    if segmentsSimilar vidW vidH (4 / 100) a b then
      merge_identical_segments vidW vidH (mergeSegPair a b :: rest)
    else
      a :: merge_identical_segments vidW vidH (b :: rest)
termination_by l => l.length
decreasing_by
  · simp only [List.length_cons]
    omega
  · simp only [List.length_cons]
    omega

/-- C8: the coalescer can return a list that is not a fixed point: on a
1000×1000 source with single-crop x coordinates 0, 41, 21 the cursor first
finds 0 and 41 dissimilar (41/1000 ≥ 0.04), then merges 41 and 21 into
x = 31; the loop ends even though 0 and 31 are now similar
(31/1000 < 0.04), so a mergeable adjacent pair remains. -/
theorem c8_counterexample :
    merge_identical_segments 1000 1000
        [⟨[1], 0, 1, CropGeom.single 0 0⟩, ⟨[1], 1, 2, CropGeom.single 41 0⟩,
          ⟨[1], 2, 3, CropGeom.single 21 0⟩] =
      [⟨[1], 0, 1, CropGeom.single 0 0⟩, ⟨[1], 1, 3, CropGeom.single 31 0⟩] ∧
    segmentsSimilar 1000 1000 (4 / 100) ⟨[1], 0, 1, CropGeom.single 0 0⟩
        ⟨[1], 1, 3, CropGeom.single 31 0⟩ = true := by
  constructor
  · norm_num [merge_identical_segments, segmentsSimilar, are_single_crops_similar,
      mergeSegPair]
    decide
  · norm_num [segmentsSimilar, are_single_crops_similar]

/-- C8 (amended): the single left-to-right pass guarantees only a local
property; a merge can make the merged segment similar to its unrevisited
predecessor, so the output need not be a fixed point. When the input already
contains no similar adjacent pair the coalescer returns it unchanged. -/
theorem c8_stable_input_unchanged (vidW vidH : ℤ) (l : List CSeg)
    (h : l.Chain' fun a b => segmentsSimilar vidW vidH (4 / 100) a b = false) :
    merge_identical_segments vidW vidH l = l := by
  induction l with
  | nil => simp [merge_identical_segments]
  | cons a tail ih =>
    cases tail with
    | nil => simp [merge_identical_segments]
    | cons b rest =>
      rw [List.chain'_cons] at h
      rw [merge_identical_segments, if_neg (by simp [h.1])]
      exact congrArg (a :: ·) (ih h.2)

/-- C8 witness: two dissimilar single-crop segments pass through the
coalescer unchanged. -/
theorem c8_stable_input_unchanged_witness :
    ([⟨[1], 0, 1, CropGeom.single 0 0⟩, ⟨[1], 1, 2, CropGeom.single 100 0⟩] : List CSeg).Chain'
        (fun a b => segmentsSimilar 1000 1000 (4 / 100) a b = false) ∧
    merge_identical_segments 1000 1000
        [⟨[1], 0, 1, CropGeom.single 0 0⟩, ⟨[1], 1, 2, CropGeom.single 100 0⟩] =
      [⟨[1], 0, 1, CropGeom.single 0 0⟩, ⟨[1], 1, 2, CropGeom.single 100 0⟩] := by
  have hc : ([⟨[1], 0, 1, CropGeom.single 0 0⟩,
      ⟨[1], 1, 2, CropGeom.single 100 0⟩] : List CSeg).Chain'
      (fun a b => segmentsSimilar 1000 1000 (4 / 100) a b = false) := by
    norm_num [List.chain'_cons, segmentsSimilar, are_single_crops_similar]
  exact ⟨hc, c8_stable_input_unchanged 1000 1000 _ hc⟩

/-- A diarized speaker segment as consumed by
_merge_scene_change_and_speaker_segments. -/
structure SpSeg where
  speakers : List ℤ
  start_time : ℚ
  end_time : ℚ
deriving DecidableEq, Repr

/-- The contiguity relation between adjacent segments: the left segment ends
exactly where the right one starts. -/
def SegRel (a b : SpSeg) : Prop := a.end_time = b.start_time

instance : DecidableRel SegRel := fun a b =>
  decidable_of_iff (a.end_time = b.start_time) Iff.rfl

/-- The cursor state of the Python merging loop: the list of segments before
the current one (most recent first), the current segment, and those after
it. This is the (speaker_segments, segments_idx) pair of the source in
zipper form. -/
structure MZip where
  before : List SpSeg
  cur : SpSeg
  after : List SpSeg
deriving DecidableEq, Repr

/-- The segment list represented by a cursor state. -/
def MZip.toList (z : MZip) : List SpSeg := z.before.reverse ++ z.cur :: z.after

/-- The start time of the first segment of the represented list. -/
def MZip.firstStart (z : MZip) : ℚ := (z.before.getLast?.getD z.cur).start_time

/-- The end time of the last segment of the represented list. -/
def MZip.lastStop (z : MZip) : ℚ := (z.after.getLast?.getD z.cur).end_time

/-- Embedding of the advancing while loop
`while scene_change_sec > segment["end_time"]: segments_idx += 1`: move the
cursor right until the scene change is at or before the current segment's
end; running off the list is the Python IndexError. -/
def advanceTo (t : ℚ) (b : List SpSeg) (c : SpSeg) : List SpSeg → Option MZip
  | [] => if c.end_time < t then none else some ⟨b, c, []⟩
  | n :: rest =>
    if c.end_time < t then advanceTo t (c :: b) n rest else some ⟨b, c, n :: rest⟩

/-- Embedding of the four-way decision of
_merge_scene_change_and_speaker_segments at one scene change (the cursor
already owns the scene change): snap the segment end (also moving the next
segment's start when one exists), else snap the segment start (also moving
the previous segment's end when one exists), else no-op on an exact
boundary, else split the segment at the scene change, the inserted second
half inheriting the speakers. -/
def applyScene (thr t : ℚ) (z : MZip) : MZip :=
  if 0 < z.cur.end_time - t ∧ z.cur.end_time - t < thr then
    match z.after with
    | [] => ⟨z.before, { z.cur with end_time := t }, []⟩
    | n :: rest => ⟨z.before, { z.cur with end_time := t }, { n with start_time := t } :: rest⟩
  else if 0 < t - z.cur.start_time ∧ t - z.cur.start_time < thr then
    match z.before with
    | [] => ⟨[], { z.cur with start_time := t }, z.after⟩
    | p :: rest => ⟨{ p with end_time := t } :: rest, { z.cur with start_time := t }, z.after⟩
  else if t = z.cur.end_time then z
  else ⟨z.before, { z.cur with end_time := t }, ⟨z.cur.speakers, t, z.cur.end_time⟩ :: z.after⟩

/-- One scene change processed: advance the cursor, then apply the decision
rule. -/
def sceneStep (thr : ℚ) (z : MZip) (t : ℚ) : Option MZip :=
  (advanceTo t z.before z.cur z.after).map (applyScene thr t)

/-- Embedding of Resizer._merge_scene_change_and_speaker_segments: fold the
scene changes over the cursor state (an empty segment list is the immediate
Python IndexError whenever there is a scene change to place). -/
def merge_scene_change_and_speaker_segments (speakerSegments : List SpSeg)
    (sceneChanges : List ℚ) (thr : ℚ) : Option (List SpSeg) :=
  match speakerSegments with
  | [] =>
    match sceneChanges with
    | [] => some []
    | _ :: _ => none
  | c :: rest => (sceneChanges.foldlM (sceneStep thr) ⟨[], c, rest⟩).map MZip.toList

theorem advanceTo_toList (t : ℚ) :
    ∀ (a b : List SpSeg) (c : SpSeg) (z' : MZip),
      advanceTo t b c a = some z' → z'.toList = b.reverse ++ c :: a := by
  intro a
  induction a with
  | nil =>
    intro b c z' h
    rw [advanceTo] at h
    split at h
    · exact absurd h (by simp)
    · obtain rfl := Option.some.inj h
      rfl
  | cons n rest ih =>
    intro b c z' h
    rw [advanceTo] at h
    split at h
    · rw [ih (c :: b) n z' h]
      simp
    · obtain rfl := Option.some.inj h
      rfl

theorem toList_head? (z : MZip) :
    z.toList.head? = some (z.before.getLast?.getD z.cur) := by
  obtain ⟨b, c, a⟩ := z
  rw [MZip.toList, List.head?_append, List.head?_reverse]
  cases b.getLast? with
  | none => rfl
  | some x => rfl

theorem toList_getLast? (z : MZip) :
    z.toList.getLast? = some (z.after.getLast?.getD z.cur) := by
  obtain ⟨b, c, a⟩ := z
  rw [MZip.toList, List.getLast?_append, List.getLast?_cons]
  cases a.getLast? with
  | none => rfl
  | some x => rfl

/-- The cursor-local form of contiguity of the represented list. -/
def ZInv (z : MZip) : Prop :=
  List.Chain' SegRel z.before.reverse ∧ (∀ x ∈ z.before.head?, SegRel x z.cur) ∧
    (∀ y ∈ z.after.head?, SegRel z.cur y) ∧ List.Chain' SegRel z.after

theorem zinv_iff (z : MZip) : ZInv z ↔ List.Chain' SegRel z.toList := by
  obtain ⟨b, c, a⟩ := z
  rw [MZip.toList, List.chain'_append, List.chain'_cons']
  simp only [ZInv, List.getLast?_reverse, List.head?_cons, Option.mem_def,
    Option.some.injEq]
  constructor
  · rintro ⟨h1, h2, h3, h4⟩
    refine ⟨h1, ⟨h3, h4⟩, ?_⟩
    intro x hx y hy
    subst hy
    exact h2 x hx
  · rintro ⟨h1, ⟨h3, h4⟩, h2⟩
    exact ⟨h1, fun x hx => h2 x hx c rfl, h3, h4⟩

theorem applyScene_zinv (thr t : ℚ) (z : MZip) (h : ZInv z) :
    ZInv (applyScene thr t z) := by
  obtain ⟨b, c, a⟩ := z
  obtain ⟨h1, h2, h3, h4⟩ := h
  rw [applyScene]
  split_ifs with hc1 hc2 hc3
  · cases a with
    | nil => exact ⟨h1, fun x hx => h2 x hx, by simp, List.chain'_nil⟩
    | cons n rest =>
      rw [List.chain'_cons'] at h4
      refine ⟨h1, fun x hx => h2 x hx, ?_, ?_⟩
      · intro y hy
        simp only [List.head?_cons, Option.mem_def, Option.some.injEq] at hy
        subst hy
        rfl
      · rw [List.chain'_cons']
        exact ⟨fun y hy => h4.1 y hy, h4.2⟩
  · cases b with
    | nil => exact ⟨List.chain'_nil, by simp, fun y hy => h3 y hy, h4⟩
    | cons p rest =>
      rw [List.reverse_cons, List.chain'_append] at h1
      refine ⟨?_, ?_, fun y hy => h3 y hy, h4⟩
      · rw [List.reverse_cons, List.chain'_append]
        refine ⟨h1.1, List.chain'_singleton _, ?_⟩
        intro x hx y hy
        simp only [List.head?_cons, Option.mem_def, Option.some.injEq] at hy
        subst hy
        exact h1.2.2 x hx p (by simp)
      · intro x hx
        simp only [List.head?_cons, Option.mem_def, Option.some.injEq] at hx
        subst hx
        rfl
  · exact ⟨h1, h2, h3, h4⟩
  · refine ⟨h1, fun x hx => h2 x hx, ?_, ?_⟩
    · intro y hy
      simp only [List.head?_cons, Option.mem_def, Option.some.injEq] at hy
      subst hy
      rfl
    · rw [List.chain'_cons']
      exact ⟨fun y hy => h3 y hy, h4⟩

theorem applyScene_speakers (thr t : ℚ) (z : MZip) :
    ∀ s ∈ (applyScene thr t z).toList, ∃ s0 ∈ z.toList, s.speakers = s0.speakers := by
  obtain ⟨b, c, a⟩ := z
  rw [applyScene]
  split_ifs with hc1 hc2 hc3
  · cases a with
    | nil =>
      intro s hs
      simp only [MZip.toList, List.mem_append, List.mem_cons, List.mem_reverse,
        List.not_mem_nil, or_false] at hs ⊢
      rcases hs with hb | rfl
      · exact ⟨s, by tauto, rfl⟩
      · exact ⟨c, by tauto, rfl⟩
    | cons n rest =>
      intro s hs
      simp only [MZip.toList, List.mem_append, List.mem_cons, List.mem_reverse] at hs ⊢
      rcases hs with hb | rfl | rfl | hr
      · exact ⟨s, by tauto, rfl⟩
      · exact ⟨c, by tauto, rfl⟩
      · exact ⟨n, by tauto, rfl⟩
      · exact ⟨s, by tauto, rfl⟩
  · cases b with
    | nil =>
      intro s hs
      simp only [MZip.toList, List.reverse_nil, List.nil_append, List.mem_cons] at hs ⊢
      rcases hs with rfl | ha
      · exact ⟨c, by tauto, rfl⟩
      · exact ⟨s, by tauto, rfl⟩
    | cons p rest =>
      intro s hs
      simp only [MZip.toList, List.mem_append, List.mem_cons, List.mem_reverse] at hs ⊢
      rcases hs with (rfl | hr) | rfl | ha
      · exact ⟨p, by tauto, rfl⟩
      · exact ⟨s, by tauto, rfl⟩
      · exact ⟨c, by tauto, rfl⟩
      · exact ⟨s, by tauto, rfl⟩
  · exact fun s hs => ⟨s, hs, rfl⟩
  · intro s hs
    simp only [MZip.toList, List.mem_append, List.mem_cons, List.mem_reverse] at hs ⊢
    rcases hs with hb | rfl | rfl | ha
    · exact ⟨s, by tauto, rfl⟩
    · exact ⟨c, by tauto, rfl⟩
    · exact ⟨c, by tauto, rfl⟩
    · exact ⟨s, by tauto, rfl⟩

theorem applyScene_firstStart (thr t : ℚ) (z : MZip) :
    (applyScene thr t z).firstStart = z.firstStart ∨
      (applyScene thr t z).firstStart = t := by
  obtain ⟨b, c, a⟩ := z
  rw [applyScene]
  split_ifs with hc1 hc2 hc3
  · cases a with
    | nil =>
      cases hb : b.getLast? with
      | none => left; simp [MZip.firstStart, hb]
      | some x => left; simp [MZip.firstStart, hb]
    | cons n rest =>
      cases hb : b.getLast? with
      | none => left; simp [MZip.firstStart, hb]
      | some x => left; simp [MZip.firstStart, hb]
  · cases b with
    | nil => right; simp [MZip.firstStart]
    | cons p rest =>
      cases hr : rest.getLast? with
      | none => left; simp [MZip.firstStart, List.getLast?_cons, hr]
      | some x => left; simp [MZip.firstStart, List.getLast?_cons, hr]
  · left; rfl
  · cases hb : b.getLast? with
    | none => left; simp [MZip.firstStart, hb]
    | some x => left; simp [MZip.firstStart, hb]

theorem applyScene_lastStop (thr t : ℚ) (z : MZip) :
    (applyScene thr t z).lastStop = z.lastStop ∨ (applyScene thr t z).lastStop = t := by
  obtain ⟨b, c, a⟩ := z
  rw [applyScene]
  split_ifs with hc1 hc2 hc3
  · cases a with
    | nil => right; simp [MZip.lastStop]
    | cons n rest =>
      cases hr : rest.getLast? with
      | none => left; simp [MZip.lastStop, List.getLast?_cons, hr]
      | some x => left; simp [MZip.lastStop, List.getLast?_cons, hr]
  · cases b with
    | nil =>
      cases ha : a.getLast? with
      | none => left; simp [MZip.lastStop, ha]
      | some x => left; simp [MZip.lastStop, ha]
    | cons p rest =>
      cases ha : a.getLast? with
      | none => left; simp [MZip.lastStop, ha]
      | some x => left; simp [MZip.lastStop, ha]
  · left; rfl
  · cases ha : a.getLast? with
    | none => left; simp [MZip.lastStop, List.getLast?_cons, ha]
    | some x => left; simp [MZip.lastStop, List.getLast?_cons, ha]

theorem foldScenes_props (thr : ℚ) :
    ∀ (scenes : List ℚ) (z z' : MZip),
      scenes.foldlM (sceneStep thr) z = some z' →
      (ZInv z → ZInv z') ∧
      (∀ s ∈ z'.toList, ∃ s0 ∈ z.toList, s.speakers = s0.speakers) ∧
      (z'.firstStart = z.firstStart ∨ z'.firstStart ∈ scenes) ∧
      (z'.lastStop = z.lastStop ∨ z'.lastStop ∈ scenes) := by
  intro scenes
  induction scenes with
  | nil =>
    intro z z' h
    simp only [List.foldlM_nil] at h
    obtain rfl := Option.some.inj h
    exact ⟨id, fun s hs => ⟨s, hs, rfl⟩, Or.inl rfl, Or.inl rfl⟩
  | cons t ts ih =>
    intro z z' h
    rw [List.foldlM_cons] at h
    obtain ⟨z1, hz1, hrest⟩ := Option.bind_eq_some.mp h
    rw [sceneStep] at hz1
    obtain ⟨z0, hadv, happ⟩ := Option.map_eq_some'.mp hz1
    subst happ
    have htl : z0.toList = z.toList := advanceTo_toList t z.after z.before z.cur z0 hadv
    have hfs0 : z0.firstStart = z.firstStart := by
      have h0 := toList_head? z0
      rw [htl, toList_head? z] at h0
      exact (congrArg SpSeg.start_time (Option.some.inj h0)).symm
    have hls0 : z0.lastStop = z.lastStop := by
      have h0 := toList_getLast? z0
      rw [htl, toList_getLast? z] at h0
      exact (congrArg SpSeg.end_time (Option.some.inj h0)).symm
    obtain ⟨ihz, ihsp, ihfs, ihls⟩ := ih (applyScene thr t z0) z' hrest
    refine ⟨?_, ?_, ?_, ?_⟩
    · intro hz
      refine ihz (applyScene_zinv thr t z0 ?_)
      rw [zinv_iff, htl, ← zinv_iff]
      exact hz
    · intro s hs
      obtain ⟨s1, hs1, e1⟩ := ihsp s hs
      obtain ⟨s0, hs0, e0⟩ := applyScene_speakers thr t z0 s1 hs1
      exact ⟨s0, htl ▸ hs0, e1.trans e0⟩
    · rcases ihfs with h1 | h1
      · rcases applyScene_firstStart thr t z0 with h2 | h2
        · exact Or.inl (h1.trans (h2.trans hfs0))
        · exact Or.inr (by rw [h1, h2]; exact List.mem_cons_self t ts)
      · exact Or.inr (List.mem_cons_of_mem t h1)
    · rcases ihls with h1 | h1
      · rcases applyScene_lastStop thr t z0 with h2 | h2
        · exact Or.inl (h1.trans (h2.trans hls0))
        · exact Or.inr (by rw [h1, h2]; exact List.mem_cons_self t ts)
      · exact Or.inr (List.mem_cons_of_mem t h1)

/-- C5 (amended): whenever the timeline merge completes (the scene-change
cursor never runs past the segment list), the output is contiguous whenever
the input was, every output segment carries the speaker set of some input
segment (in particular both halves of a split inherit the split segment's
speakers), and the output's first start time and last end time are each
either the input's or one of the scene-change timestamps. Coverage is not
always identical: snapping a scene change within the merge threshold of the
first segment's start or the last segment's end moves that endpoint. -/
theorem c5_timeline_merge_invariants (segs : List SpSeg) (scenes : List ℚ) (thr : ℚ)
    (out : List SpSeg)
    (hm : merge_scene_change_and_speaker_segments segs scenes thr = some out) :
    (List.Chain' SegRel segs → List.Chain' SegRel out) ∧
    (∀ s ∈ out, ∃ s0 ∈ segs, s.speakers = s0.speakers) ∧
    (∀ x ∈ out.head?, ∀ x0 ∈ segs.head?,
      x.start_time = x0.start_time ∨ x.start_time ∈ scenes) ∧
    (∀ y ∈ out.getLast?, ∀ y0 ∈ segs.getLast?,
      y.end_time = y0.end_time ∨ y.end_time ∈ scenes) := by
  match segs with
  | [] =>
    cases scenes with
    | nil =>
      rw [merge_scene_change_and_speaker_segments] at hm
      obtain rfl := Option.some.inj hm
      exact ⟨fun _ => List.chain'_nil, by simp, by simp, by simp⟩
    | cons t ts =>
      rw [merge_scene_change_and_speaker_segments] at hm
      exact absurd hm (by simp)
  | c :: rest =>
    rw [merge_scene_change_and_speaker_segments] at hm
    obtain ⟨z', hfold, htl⟩ := Option.map_eq_some'.mp hm
    obtain ⟨hz, hsp, hfs, hls⟩ := foldScenes_props thr scenes ⟨[], c, rest⟩ z' hfold
    refine ⟨?_, ?_, ?_, ?_⟩
    · intro hcont
      rw [← htl, ← zinv_iff]
      exact hz ((zinv_iff ⟨[], c, rest⟩).mpr hcont)
    · intro s hs
      rw [← htl] at hs
      exact hsp s hs
    · intro x hx x0 hx0
      rw [← htl, toList_head? z'] at hx
      simp only [Option.mem_def, Option.some.injEq, List.head?_cons] at hx hx0
      subst hx
      subst hx0
      exact hfs
    · intro y hy y0 hy0
      rw [← htl, toList_getLast? z'] at hy
      rw [List.getLast?_cons] at hy0
      simp only [Option.mem_def, Option.some.injEq] at hy hy0
      subst hy
      subst hy0
      exact hls

/-- C5: coverage is not identical to the input's: a single segment [0, 10]
with a scene change at 9.9 and merge threshold 0.25 has its end snapped to
9.9 (0 < 10 - 9.9 < 0.25 and there is no following segment), so the output
covers [0, 9.9] while the input covered [0, 10]. -/
theorem c5_counterexample :
    merge_scene_change_and_speaker_segments [⟨[1], 0, 10⟩] [99 / 10] (1 / 4) =
      some [⟨[1], 0, 99 / 10⟩] ∧ (99 / 10 : ℚ) ≠ 10 := by
  constructor
  · norm_num [merge_scene_change_and_speaker_segments, List.foldlM_cons, List.foldlM_nil,
      sceneStep, advanceTo, applyScene, MZip.toList]
  · norm_num

/-- C5 witness: two contiguous speaker segments with a scene change at 3
split into three contiguous segments, with the first half's speakers
inherited by the inserted half. -/
theorem c5_timeline_merge_invariants_witness :
    merge_scene_change_and_speaker_segments
        [⟨[1], 0, 5⟩, ⟨[2], 5, 10⟩] [3] (1 / 4) =
      some [⟨[1], 0, 3⟩, ⟨[1], 3, 5⟩, ⟨[2], 5, 10⟩] ∧
    ((List.Chain' SegRel [⟨[1], 0, 5⟩, ⟨[2], 5, 10⟩] →
        List.Chain' SegRel [⟨[1], 0, 3⟩, ⟨[1], 3, 5⟩, ⟨[2], 5, 10⟩]) ∧
      (∀ s ∈ ([⟨[1], 0, 3⟩, ⟨[1], 3, 5⟩, ⟨[2], 5, 10⟩] : List SpSeg),
        ∃ s0 ∈ ([⟨[1], 0, 5⟩, ⟨[2], 5, 10⟩] : List SpSeg), s.speakers = s0.speakers) ∧
      (∀ x ∈ ([⟨[1], 0, 3⟩, ⟨[1], 3, 5⟩, ⟨[2], 5, 10⟩] : List SpSeg).head?,
        ∀ x0 ∈ ([⟨[1], 0, 5⟩, ⟨[2], 5, 10⟩] : List SpSeg).head?,
          x.start_time = x0.start_time ∨ x.start_time ∈ ([3] : List ℚ)) ∧
      (∀ y ∈ ([⟨[1], 0, 3⟩, ⟨[1], 3, 5⟩, ⟨[2], 5, 10⟩] : List SpSeg).getLast?,
        ∀ y0 ∈ ([⟨[1], 0, 5⟩, ⟨[2], 5, 10⟩] : List SpSeg).getLast?,
          y.end_time = y0.end_time ∨ y.end_time ∈ ([3] : List ℚ))) := by
  have hm : merge_scene_change_and_speaker_segments
      [⟨[1], 0, 5⟩, ⟨[2], 5, 10⟩] [3] (1 / 4) =
      some [⟨[1], 0, 3⟩, ⟨[1], 3, 5⟩, ⟨[2], 5, 10⟩] := by
    norm_num [merge_scene_change_and_speaker_segments, List.foldlM_cons, List.foldlM_nil,
      sceneStep, advanceTo, applyScene, MZip.toList]
  exact ⟨hm, c5_timeline_merge_invariants _ _ _ _ hm⟩

/-- Per-segment state of _find_first_sec_with_face_for_each_segment: the
segment bounds, the search cursor first_face_sec, and the found_face /
is_analyzed flags. -/
structure ScanSeg where
  start_time : ℚ
  stop_time : ℚ
  cursor : ℚ
  found : Bool
  analyzed : Bool
deriving DecidableEq, Repr

/-- Initialization: the cursor starts an eighth of the way into the
segment, nothing found, nothing analyzed. -/
def initScanSeg (s e : ℚ) : ScanSeg :=
  ⟨s, e, s + (e - s) / 8, false, false⟩

/-- Samples taken for one unresolved segment in one round:
max(1, int(min(batch_period, end - cursor) // 1)). -/
def numSamples (period : ℕ) (s : ScanSeg) : ℕ :=
  (max 1 (Int.floor (min (period : ℚ) (s.stop_time - s.cursor)))).toNat

/-- The inner per-segment sampling loop of one round: at each one-second
step, a detected face sets found_face and stops; otherwise the cursor
advances by the sample period (one second). The oracle is the face-detection
capability evaluated at a timestamp. -/
def sampleSeg (oracle : ℚ → Bool) : ℕ → ScanSeg → ScanSeg
  | 0, s => s
  | n + 1, s =>
    if oracle s.cursor then { s with found := true }
    else sampleSeg oracle n { s with cursor := s.cursor + 1 }

/-- One round for one segment: already-analyzed segments are untouched;
otherwise sample, then mark analyzed when a face was found or the cursor
reached within 0.25 s of the segment end. -/
def stepSeg (oracle : ℚ → Bool) (period : ℕ) (s : ScanSeg) : ScanSeg :=
  if s.analyzed = true then s
  else
    if (sampleSeg oracle (numSamples period s) s).found = true ∨
        (sampleSeg oracle (numSamples period s) s).stop_time - 1 / 4 ≤
          (sampleSeg oracle (numSamples period s) s).cursor then
      { sampleSeg oracle (numSamples period s) s with analyzed := true }
    else sampleSeg oracle (numSamples period s) s

/-- The whole scanner state: all segments plus the shared batch period. -/
structure ScanState where
  segs : List ScanSeg
  period : ℕ
deriving DecidableEq, Repr

/-- One round of the scanning while loop: every segment is processed at the
current batch period, which then grows to (period + 3) * 2. -/
def scanStep (oracle : ℚ → Bool) (st : ScanState) : ScanState :=
  ⟨st.segs.map (stepSeg oracle st.period), (st.period + 3) * 2⟩

/-- The scanner's initial state with batch period 1. -/
def initScan (items : List (ℚ × ℚ)) : ScanState :=
  ⟨items.map fun p => initScanSeg p.1 p.2, 1⟩

/-- The loop's exit condition: every segment analyzed. -/
def allAnalyzed (st : ScanState) : Prop := ∀ s ∈ st.segs, s.analyzed = true

theorem one_le_numSamples (period : ℕ) (s : ScanSeg) : 1 ≤ numSamples period s := by
  have h : (1 : ℤ) ≤ max 1 (Int.floor (min (period : ℚ) (s.stop_time - s.cursor))) :=
    le_max_left _ _
  rw [numSamples]
  omega

theorem sampleSeg_stop (o : ℚ → Bool) :
    ∀ (n : ℕ) (s : ScanSeg), (sampleSeg o n s).stop_time = s.stop_time := by
  intro n
  induction n with
  | zero => intro s; rfl
  | succ n ih =>
    intro s
    rw [sampleSeg]
    split
    · rfl
    · rw [ih]

theorem sampleSeg_analyzed (o : ℚ → Bool) :
    ∀ (n : ℕ) (s : ScanSeg), (sampleSeg o n s).analyzed = s.analyzed := by
  intro n
  induction n with
  | zero => intro s; rfl
  | succ n ih =>
    intro s
    rw [sampleSeg]
    split
    · rfl
    · rw [ih]

theorem sampleSeg_not_found (o : ℚ → Bool) :
    ∀ (n : ℕ) (s : ScanSeg), (sampleSeg o n s).found = false →
      (sampleSeg o n s).cursor = s.cursor + (n : ℚ) := by
  intro n
  induction n with
  | zero => intro s _; simp [sampleSeg]
  | succ n ih =>
    intro s h
    rw [sampleSeg] at h ⊢
    split_ifs at h ⊢ with ho
    rw [ih _ h]
    push_cast
    ring

/-- The termination measure of one segment: zero once analyzed, otherwise
one more than the whole seconds left to the segment end. -/
def segMeasure (s : ScanSeg) : ℕ :=
  if s.analyzed = true then 0 else (Int.ceil (s.stop_time - s.cursor)).toNat + 1

theorem stepSeg_measure_lt (o : ℚ → Bool) (p : ℕ) (s : ScanSeg)
    (h : s.analyzed = false) : segMeasure (stepSeg o p s) < segMeasure s := by
  have hm : segMeasure s = (Int.ceil (s.stop_time - s.cursor)).toNat + 1 := by
    rw [segMeasure, if_neg (by simp [h])]
  rw [stepSeg, if_neg (by simp [h])]
  split_ifs with hcond
  · rw [hm, segMeasure, if_pos rfl]
    omega
  · push_neg at hcond
    have hf : (sampleSeg o (numSamples p s) s).found = false := by
      simpa using hcond.1
    have hcadd := sampleSeg_not_found o (numSamples p s) s hf
    have hstop := sampleSeg_stop o (numSamples p s) s
    have hana : (sampleSeg o (numSamples p s) s).analyzed = false := by
      rw [sampleSeg_analyzed]; exact h
    have hcur := hcond.2
    rw [hstop, hcadd] at hcur
    have hceil : Int.ceil (s.stop_time - (s.cursor + (numSamples p s : ℚ))) =
        Int.ceil (s.stop_time - s.cursor) - (numSamples p s : ℤ) := by
      rw [show s.stop_time - (s.cursor + (numSamples p s : ℚ)) =
        s.stop_time - s.cursor - (numSamples p s : ℕ) by ring]
      exact Int.ceil_sub_nat _ _
    have hpos : 0 < Int.ceil (s.stop_time - (s.cursor + (numSamples p s : ℚ))) := by
      rw [Int.ceil_pos]
      have h14 : (0 : ℚ) < 1 / 4 := by norm_num
      linarith
    have hn := one_le_numSamples p s
    rw [hm, segMeasure, if_neg (by simp [hana]), hstop, hcadd, hceil] at *
    omega

theorem stepSeg_measure_le (o : ℚ → Bool) (p : ℕ) (s : ScanSeg) :
    segMeasure (stepSeg o p s) ≤ segMeasure s := by
  cases ha : s.analyzed with
  | true => rw [stepSeg, if_pos ha]
  | false => exact le_of_lt (stepSeg_measure_lt o p s ha)

theorem mapMeasure_le (o : ℚ → Bool) (p : ℕ) :
    ∀ l : List ScanSeg,
      ((l.map (stepSeg o p)).map segMeasure).sum ≤ (l.map segMeasure).sum := by
  intro l
  induction l with
  | nil => simp
  | cons a tail ih =>
    simp only [List.map_cons, List.sum_cons]
    have := stepSeg_measure_le o p a
    omega

theorem mapMeasure_lt (o : ℚ → Bool) (p : ℕ) :
    ∀ l : List ScanSeg, (∃ s ∈ l, s.analyzed = false) →
      ((l.map (stepSeg o p)).map segMeasure).sum < (l.map segMeasure).sum := by
  intro l
  induction l with
  | nil => rintro ⟨s, hs, _⟩; exact absurd hs (List.not_mem_nil s)
  | cons a tail ih =>
    rintro ⟨s, hs, hfalse⟩
    simp only [List.map_cons, List.sum_cons]
    rcases List.mem_cons.mp hs with rfl | hs'
    · have h1 := stepSeg_measure_lt o p s hfalse
      have h2 := mapMeasure_le o p tail
      omega
    · have h1 := stepSeg_measure_le o p a
      have h2 := ih ⟨s, hs', hfalse⟩
      omega

/-- The termination measure of the whole scanner state. -/
def stMeasure (st : ScanState) : ℕ := (st.segs.map segMeasure).sum

theorem scanStep_measure_lt (o : ℚ → Bool) (st : ScanState)
    (h : ¬ allAnalyzed st) : stMeasure (scanStep o st) < stMeasure st := by
  rw [allAnalyzed, not_forall] at h
  obtain ⟨s, hs⟩ := h
  rw [not_forall] at hs
  obtain ⟨hmem, hna⟩ := hs
  exact mapMeasure_lt o st.period st.segs ⟨s, hmem, by simpa using hna⟩

theorem scan_reaches_allAnalyzed (o : ℚ → Bool) :
    ∀ (m : ℕ) (st : ScanState), stMeasure st ≤ m →
      ∃ n, allAnalyzed ((scanStep o)^[n] st) := by
  intro m
  induction m with
  | zero =>
    intro st h
    by_cases hall : allAnalyzed st
    · exact ⟨0, hall⟩
    · exact absurd (scanStep_measure_lt o st hall) (by omega)
  | succ m ih =>
    intro st h
    by_cases hall : allAnalyzed st
    · exact ⟨0, hall⟩
    · obtain ⟨n, hn⟩ := ih (scanStep o st) (by
        have := scanStep_measure_lt o st hall
        omega)
      exact ⟨n + 1, by rwa [Function.iterate_succ_apply]⟩

/-- A segment marked analyzed really is resolved: a face was found or the
cursor is within 0.25 s of the segment end. -/
def ResOk (s : ScanSeg) : Prop :=
  s.analyzed = true → (s.found = true ∨ s.stop_time - 1 / 4 ≤ s.cursor)

theorem stepSeg_resOk (o : ℚ → Bool) (p : ℕ) (s : ScanSeg) (h : ResOk s) :
    ResOk (stepSeg o p s) := by
  rw [stepSeg]
  split_ifs with h1 h2
  · exact h
  · intro _
    exact h2
  · intro hcontr
    rw [sampleSeg_analyzed] at hcontr
    exact absurd hcontr h1

theorem iterate_resOk (o : ℚ → Bool) :
    ∀ (n : ℕ) (st : ScanState), (∀ s ∈ st.segs, ResOk s) →
      ∀ s ∈ ((scanStep o)^[n] st).segs, ResOk s := by
  intro n
  induction n with
  | zero => intro st h; exact h
  | succ n ih =>
    intro st h
    rw [Function.iterate_succ_apply]
    refine ih (scanStep o st) ?_
    intro s hs
    rw [scanStep] at hs
    obtain ⟨s0, hs0, rfl⟩ := List.mem_map.mp hs
    exact stepSeg_resOk o st.period s0 (h s0 hs0)

/-- C9: for every finite segment list with start_time < end_time and every
face-detection oracle, the scanning loop terminates: some round count n
leaves every segment analyzed, and each then has found_face or a cursor
within 0.25 s of its end; moreover every unresolved segment gets at least
one sample per round, a run of n no-face samples advances the cursor by
exactly n seconds, and each round grows the batch period to
(period + 3) * 2. -/
theorem c9_scanner_terminates (items : List (ℚ × ℚ)) (oracle : ℚ → Bool)
    (_hvalid : ∀ p ∈ items, p.1 < p.2) :
    (∃ n, ∀ s ∈ ((scanStep oracle)^[n] (initScan items)).segs,
        s.analyzed = true ∧ (s.found = true ∨ s.stop_time - 1 / 4 ≤ s.cursor)) ∧
    (∀ period s, s.analyzed = false → 1 ≤ numSamples period s) ∧
    (∀ n s, (sampleSeg oracle n s).found = false →
      (sampleSeg oracle n s).cursor = s.cursor + (n : ℚ)) ∧
    (∀ st, (scanStep oracle st).period = (st.period + 3) * 2) := by
  refine ⟨?_, fun period s _ => one_le_numSamples period s,
    fun n s hf => sampleSeg_not_found oracle n s hf, fun st => rfl⟩
  obtain ⟨n, hn⟩ := scan_reaches_allAnalyzed oracle (stMeasure (initScan items))
    (initScan items) le_rfl
  have hres : ∀ s ∈ ((scanStep oracle)^[n] (initScan items)).segs, ResOk s := by
    refine iterate_resOk oracle n (initScan items) ?_
    intro s hs
    rw [initScan] at hs
    obtain ⟨p, _, rfl⟩ := List.mem_map.mp hs
    intro hcontr
    exact absurd hcontr (by simp [initScanSeg])
  exact ⟨n, fun s hs => ⟨hn s hs, hres s hs (hn s hs)⟩⟩

/-- C9 witness: a single segment [0, 10] under the never-a-face oracle. -/
theorem c9_scanner_terminates_witness :
    (∀ p ∈ ([((0 : ℚ), (10 : ℚ))] : List (ℚ × ℚ)), p.1 < p.2) ∧
    ((∃ n, ∀ s ∈ ((scanStep (fun _ => false))^[n]
          (initScan [((0 : ℚ), (10 : ℚ))])).segs,
        s.analyzed = true ∧ (s.found = true ∨ s.stop_time - 1 / 4 ≤ s.cursor)) ∧
      (∀ period s, s.analyzed = false → 1 ≤ numSamples period s) ∧
      (∀ n s, (sampleSeg (fun _ => false) n s).found = false →
        (sampleSeg (fun _ => false) n s).cursor = s.cursor + (n : ℚ)) ∧
      (∀ st, (scanStep (fun _ => false) st).period = (st.period + 3) * 2)) := by
  have hv : ∀ p ∈ ([((0 : ℚ), (10 : ℚ))] : List (ℚ × ℚ)), p.1 < p.2 := by
    intro p hp
    simp only [List.mem_singleton] at hp
    subst hp
    norm_num
  exact ⟨hv, c9_scanner_terminates _ _ hv⟩

end ClipsAI
